import Mathlib

/-!
Shallow embedding of the imger content-addressable image store (src/main.ts).

Bytes are modelled as `List Nat`; the Deno KV store as three total lookup
functions (metadata, chunk records, digest index); KV writes as an explicit
operation type applied to the store.  The MD5 hash (`calculateMd5`) and
`crypto.randomUUID()` are opaque external inputs, so they appear as
parameters (`hash : List Nat → String`, `freshId : String`); the server
awaits each KV operation, so a per-file upload is embedded as the list of
write batches it issues (one batch per `kv.atomic().commit()` / `kv.set`),
and interleaved readers observe the store after any prefix of those batches.
-/

/-- `KV_CHUNK_SIZE` from src/main.ts line 5: `50 * 1024`. -/
def KV_CHUNK_SIZE : Nat := 50 * 1024

/-- `ImageMeta` interface (src/main.ts lines 13-21). -/
structure ImageMeta where
  name : String
  type : String
  size : Nat
  chunks : Nat
  uploadedAt : Nat
  md5 : String
  completed : Bool
deriving DecidableEq

/-- One uploaded multipart file part: its `name`, MIME `type`, and payload
bytes (`imageBytes`, src/main.ts line 51). -/
structure FileData where
  name : String
  type : String
  bytes : List Nat
deriving DecidableEq

/-- One element of the JSON result array (src/main.ts line 41). -/
structure UploadEntry where
  name : String
  url : Option String
  error : Option String
  status : String
deriving DecidableEq

/-- The Deno KV key space used by the program (src/main.ts / spec section 6):
`("images", id, "meta")`, `("images", id, "chunk", index)`, and
`("md5_to_id", digest)`. -/
structure Store where
  md5ToId : String → Option String
  meta : String → Option ImageMeta
  chunk : String → Nat → Option (List Nat)

/-- A single KV write issued by the program. -/
inductive KvOp where
  | setMeta (id : String) (m : ImageMeta)
  | setChunk (id : String) (i : Nat) (data : List Nat)
  | setMd5 (digest : String) (id : String)
deriving DecidableEq

/-- Effect of one KV write on the store. -/
def applyOp (s : Store) : KvOp → Store
  | .setMeta id m =>
      { s with meta := fun x => if x = id then some m else s.meta x }
  | .setChunk id i data =>
      { s with chunk := fun x j => if x = id ∧ j = i then some data else s.chunk x j }
  | .setMd5 digest id =>
      { s with md5ToId := fun x => if x = digest then some id else s.md5ToId x }

/-- One atomic batch of writes (`kv.atomic()...commit()` commits all of its
`set`s together; a plain `kv.set` is a singleton batch). -/
def applyBatch (s : Store) (b : List KvOp) : Store := b.foldl applyOp s

/-- Apply a sequence of write batches in order; interleaved readers observe
the store after a prefix of the batches. -/
def applyBatches (s : Store) (bs : List (List KvOp)) : Store := bs.foldl applyBatch s

/-- `Math.ceil(byteLength / KV_CHUNK_SIZE)` (src/main.ts lines 77 and 116),
for a general chunk size `c`. -/
def chunkCount (len c : Nat) : Nat := (len + c - 1) / c

/-- Chunk `i` of a payload: `imageBytes.slice(start, end)` with
`start = i * c` and `end = min(start + c, byteLength)`
(src/main.ts lines 94-96 and 134-136). -/
def sliceChunk (p : List Nat) (c i : Nat) : List Nat :=
  (p.drop (i * c)).take (min (i * c + c) p.length - i * c)

/-- The chunk codec's split: the ordered chunks produced by the upload loop
(src/main.ts lines 133-138). -/
def split (p : List Nat) (c : Nat) : List (List Nat) :=
  (List.range (chunkCount p.length c)).map (sliceChunk p c)

/-- Collect the chunk records `0..n-1` for an object, in index order;
`none` as soon as any is missing (src/main.ts lines 192-200). -/
def collectChunks (store : Store) (id : String) : Nat → Option (List (List Nat))
  | 0 => some []
  | n + 1 =>
    match collectChunks store id n with
    | none => none
    | some acc =>
      match store.chunk id n with
      | none => none
      | some ch => some (acc ++ [ch])

/-- `fullImage.set(chunk, offset)` on a `Uint8Array`: overwrites
`chunk.length` bytes at `offset`, throwing (here `none`) when the chunk
does not fit in the target buffer (src/main.ts line 205). -/
def writeAt (buf : List Nat) (off : Nat) (ch : List Nat) : Option (List Nat) :=
  if off + ch.length ≤ buf.length then
    some (buf.take off ++ ch ++ buf.drop (off + ch.length))
  else none

/-- The reassembly loop of src/main.ts lines 203-207: copy each chunk at the
running offset. -/
def joinLoop : List (List Nat) → Nat → List Nat → Option (List Nat)
  | [], _, buf => some buf
  | ch :: rest, off, buf =>
    match writeAt buf off ch with
    | none => none
    | some buf2 => joinLoop rest (off + ch.length) buf2

/-- The chunk codec's join: `new Uint8Array(imageMeta.size)` (zero-filled)
then the copy loop (src/main.ts lines 202-207). -/
def joinChunks (chunks : List (List Nat)) (totalSize : Nat) : Option (List Nat) :=
  joinLoop chunks 0 (List.replicate totalSize 0)

/-- Result of `serveImage`, abstracting the HTTP response
(src/main.ts lines 170-226). -/
inductive ReadResult where
  | ok (body : List Nat) (contentType : String)
  | notFound
  | integrityError
  | serverError
deriving DecidableEq

/-- HTTP status code of each read outcome: 200 for bytes, 404 for
"Image not found or not yet completed", 500 for "Image data incomplete",
500 for the catch-all handler. -/
def ReadResult.httpStatus : ReadResult → Nat
  | .ok _ _ => 200
  | .notFound => 404
  | .integrityError => 500
  | .serverError => 500

/-- The repository read path of `serveImage` after the cache check
(src/main.ts lines 184-220): no or incomplete metadata gives 404; a missing
chunk gives the 500 integrity response; a chunk overflowing the
`imageMeta.size` buffer raises and is caught as a generic 500.  (The cache
insertion of lines 210-215 mutates only the cache and not the response.) -/
def serveCore (store : Store) (id : String) : ReadResult :=
  match store.meta id with
  | none => .notFound
  | some m =>
    if m.completed then
      match collectChunks store id m.chunks with
      | none => .integrityError
      | some cs =>
        match joinChunks cs m.size with
        | none => .serverError
        | some full => .ok full m.type
    else .notFound

/-- `serveImage` with its cache check (src/main.ts lines 172-182): on a hit
whose metadata exists, the cached bytes are served; on a hit with missing
metadata, or on a miss, control falls through to the repository path. -/
def serveImage (cache : String → Option (List Nat)) (store : Store) (id : String) :
    ReadResult :=
  match cache id with
  | some cached =>
    match store.meta id with
    | some m => .ok cached m.type
    | none => serveCore store id
  | none => serveCore store id

/-- JS `name.split('.')` over the character list: splits at every dot,
keeping empty segments, and yields one (empty) segment for the empty
string. -/
def splitOnDot : List Char → List (List Char)
  | [] => [[]]
  | ch :: rest =>
    let r := splitOnDot rest
    if ch = '.' then [] :: r
    else
      match r with
      | [] => [[ch]]
      | seg :: segs => (ch :: seg) :: segs

/-- Extension suffix of the public URL (src/main.ts lines 104-106 and
144-146): the trailing dot-segment of the filename when it has more than one
dot-segment; JS `''` is falsy, so an empty trailing segment adds nothing. -/
def extSuffix (name : String) : String :=
  let parts := splitOnDot name.toList
  let fileExt := if parts.length > 1 then parts.getLastD [] else []
  if fileExt = [] then "" else "." ++ String.mk fileExt

/-- The `ImageMeta` value built by the upload handler
(src/main.ts lines 73-81 and 112-120). -/
def mkMeta (f : FileData) (now : Nat) (digest : String) (completed : Bool) : ImageMeta :=
  { name := f.name
    type := f.type
    size := f.bytes.length
    chunks := chunkCount f.bytes.length KV_CHUNK_SIZE
    uploadedAt := now
    md5 := digest
    completed := completed }

/-- The object id an upload will store under: the indexed id when the digest
is already in `md5_to_id`, otherwise the freshly generated UUID
(src/main.ts lines 55-59 and 111). -/
def uploadTargetId (hash : List Nat → String) (freshId : String) (store : Store)
    (bytes : List Nat) : String :=
  match store.md5ToId (hash bytes) with
  | some id => id
  | none => freshId

/-- The per-file upload body (src/main.ts lines 51-148), when no storage
error is thrown: reads the store (digest index, then metadata), and returns
the result entry together with the ordered write batches it issues.  The
first batch is the `kv.atomic()` commit (metadata with `completed = false`,
plus the `md5_to_id` entry for a new digest); then one `kv.set` per chunk in
index order; then the final `kv.set` of the metadata with
`completed = true`. -/
def processFileOk (hash : List Nat → String) (freshId : String) (now : Nat)
    (origin : String) (store : Store) (f : FileData) :
    UploadEntry × List (List KvOp) :=
  let md5Hash := hash f.bytes
  match store.md5ToId md5Hash with
  | some existingImageId =>
    let overwrite : UploadEntry × List (List KvOp) :=
      ({ name := f.name
         url := some (origin ++ "/image/" ++ existingImageId ++ extSuffix f.name)
         error := none
         status := "overwritten" },
       [[KvOp.setMeta existingImageId (mkMeta f now md5Hash false)]] ++
         (List.range (chunkCount f.bytes.length KV_CHUNK_SIZE)).map
           (fun i => [KvOp.setChunk existingImageId i (sliceChunk f.bytes KV_CHUNK_SIZE i)]) ++
         [[KvOp.setMeta existingImageId (mkMeta f now md5Hash true)]])
    match store.meta existingImageId with
    | some m =>
      if m.completed then
        ({ name := f.name
           url := some (origin ++ "/image/" ++ existingImageId)
           error := none
           status := "cached" }, [])
      else overwrite
    | none => overwrite
  | none =>
    ({ name := f.name
       url := some (origin ++ "/image/" ++ freshId ++ extSuffix f.name)
       error := none
       status := "uploaded" },
     [[KvOp.setMeta freshId (mkMeta f now md5Hash false),
       KvOp.setMd5 md5Hash freshId]] ++
       (List.range (chunkCount f.bytes.length KV_CHUNK_SIZE)).map
         (fun i => [KvOp.setChunk freshId i (sliceChunk f.bytes KV_CHUNK_SIZE i)]) ++
       [[KvOp.setMeta freshId (mkMeta f now md5Hash true)]])

/-- The store after one file's upload has fully run. -/
def runFile (hash : List Nat → String) (freshId : String) (now : Nat)
    (origin : String) (store : Store) (f : FileData) : Store :=
  applyBatches store (processFileOk hash freshId now origin store f).2

/-- One entry of `formData.getAll("file")`: a plain string part, or a file;
`fault` models a storage/hash error thrown by the opaque runtime while
processing that file (caught by the per-file `try`/`catch`,
src/main.ts lines 50 and 150-153). -/
inductive FormEntry where
  | str (s : String)
  | file (f : FileData) (fault : Option String)

/-- Per-file step of the upload loop: a string part yields the
"Invalid file data" entry (src/main.ts lines 45-48); a thrown error is
converted to that file's error entry (lines 150-153); otherwise the normal
body runs. -/
def processEntry (hash : List Nat → String) (freshId : String) (now : Nat)
    (origin : String) (store : Store) :
    FormEntry → UploadEntry × List (List KvOp)
  | .str _ =>
    ({ name := "unknown", url := none, error := some "Invalid file data",
       status := "error" }, [])
  | .file f fault =>
    match fault with
    | some e => ({ name := f.name, url := none, error := some e, status := "error" }, [])
    | none => processFileOk hash freshId now origin store f

/-- Does this form entry fail (string part, or a thrown storage error)? -/
def entryFails : FormEntry → Bool
  | .str _ => true
  | .file _ (some _) => true
  | .file _ none => false

/-- The `for (const file of files)` loop (src/main.ts lines 44-154):
each file is processed against the store left by the previous files;
`uuid i` is the UUID generated for the i-th file. -/
def uploadLoop (hash : List Nat → String) (uuid : Nat → String) (now : Nat)
    (origin : String) : Nat → Store → List FormEntry → List UploadEntry
  | _, _, [] => []
  | i, store, e :: rest =>
    let r := processEntry hash (uuid i) now origin store e
    r.1 :: uploadLoop hash uuid now origin (i + 1) (applyBatches store r.2) rest

/-- `uploadHandler` (src/main.ts lines 32-168), abstracted to its HTTP
status and JSON entry list: 400 with no entries when no files were present;
otherwise the per-file loop, with overall status 500 when any entry has
status "error" and 200 otherwise.  (The outer catch for a malformed
multipart body, line 164-167, is outside the per-file protocol.) -/
def uploadHandler (hash : List Nat → String) (uuid : Nat → String) (now : Nat)
    (origin : String) (store : Store) (files : List FormEntry) :
    Nat × List UploadEntry :=
  if files.isEmpty then (400, [])
  else
    let results := uploadLoop hash uuid now origin 0 store files
    ((if results.any (fun r => r.status == "error") then 500 else 200), results)

/-! ### Chunk codec lemmas -/

theorem sliceChunk_eq_take (p : List Nat) (c i : Nat) :
    sliceChunk p c i = (p.drop (i * c)).take c := by
  unfold sliceChunk
  rcases le_or_lt (i * c + c) p.length with h | h
  · rw [min_eq_left h]
    congr 1
    omega
  · rw [min_eq_right h.le]
    have hlen : (p.drop (i * c)).length = p.length - i * c := List.length_drop _ _
    rw [List.take_of_length_le (by omega), List.take_of_length_le (by omega)]

theorem le_chunkCount_mul (L c : Nat) (hc : 1 ≤ c) : L ≤ chunkCount L c * c := by
  unfold chunkCount
  have h1 := Nat.div_add_mod (L + c - 1) c
  have h2 : (L + c - 1) % c < c := Nat.mod_lt _ (by omega)
  have h3 : c * ((L + c - 1) / c) = (L + c - 1) / c * c := Nat.mul_comm _ _
  omega

theorem chunkCount_mul_le (L c : Nat) : chunkCount L c * c ≤ L + c - 1 := by
  unfold chunkCount
  exact Nat.div_mul_le_self _ _

theorem range_chunks_flatten (c : Nat) :
    ∀ (n : Nat) (p : List Nat), p.length ≤ n * c →
      ((List.range n).map (fun i => (p.drop (i * c)).take c)).flatten = p := by
  intro n
  induction n with
  | zero =>
    intro p hp
    simp only [Nat.zero_mul, Nat.le_zero] at hp
    simp [List.eq_nil_of_length_eq_zero hp]
  | succ n ih =>
    intro p hp
    rw [List.range_succ_eq_map, List.map_cons, List.map_map, List.flatten_cons]
    have htail :
        (List.map ((fun i => (p.drop (i * c)).take c) ∘ Nat.succ) (List.range n)) =
        (List.map (fun i => ((p.drop c).drop (i * c)).take c) (List.range n)) := by
      apply List.map_congr_left
      intro i _
      simp only [Function.comp]
      rw [List.drop_drop]
      have hmul : Nat.succ i * c = c + i * c := by rw [Nat.succ_mul]; ring
      rw [hmul]
    have hlen : (p.drop c).length ≤ n * c := by
      have hs : (n + 1) * c = n * c + c := by ring
      simp only [List.length_drop]
      omega
    rw [htail, ih (p.drop c) hlen]
    simp [List.take_append_drop]

theorem split_flatten (p : List Nat) (c : Nat) (hc : 1 ≤ c) :
    (split p c).flatten = p := by
  unfold split
  have h : (List.range (chunkCount p.length c)).map (sliceChunk p c) =
      (List.range (chunkCount p.length c)).map (fun i => (p.drop (i * c)).take c) := by
    apply List.map_congr_left
    intro i _
    exact sliceChunk_eq_take p c i
  rw [h]
  exact range_chunks_flatten c _ p (le_chunkCount_mul p.length c hc)

theorem joinLoop_spec :
    ∀ (cs : List (List Nat)) (off : Nat) (buf : List Nat), off ≤ buf.length →
      joinLoop cs off buf =
        if off + cs.flatten.length ≤ buf.length then
          some (buf.take off ++ cs.flatten ++ buf.drop (off + cs.flatten.length))
        else none := by
  intro cs
  induction cs with
  | nil =>
    intro off buf hoff
    simp only [joinLoop, List.flatten_nil, List.append_nil, List.length_nil,
      Nat.add_zero, if_pos hoff]
    rw [List.take_append_drop]
  | cons ch rest ih =>
    intro off buf hoff
    simp only [joinLoop, writeAt]
    rcases le_or_lt (off + ch.length) buf.length with hfit | hfit
    · rw [if_pos hfit]
      show joinLoop rest (off + ch.length) (buf.take off ++ ch ++ buf.drop (off + ch.length)) =
        if off + (ch :: rest).flatten.length ≤ buf.length then
          some (buf.take off ++ (ch :: rest).flatten ++
            buf.drop (off + (ch :: rest).flatten.length))
        else none
      have hlen2 : (buf.take off ++ ch ++ buf.drop (off + ch.length)).length = buf.length := by
        simp only [List.length_append, List.length_take, List.length_drop]
        omega
      rw [ih (off + ch.length) (buf.take off ++ ch ++ buf.drop (off + ch.length))
        (by rw [hlen2]; omega)]
      rw [hlen2]
      have hfront : (buf.take off ++ ch).length = off + ch.length := by
        simp only [List.length_append, List.length_take]
        omega
      by_cases hcond : off + ch.length + rest.flatten.length ≤ buf.length
      · rw [if_pos hcond,
          if_pos (by simp only [List.flatten_cons, List.length_append]; omega)]
        have htake : (buf.take off ++ ch ++ buf.drop (off + ch.length)).take (off + ch.length) =
            buf.take off ++ ch := by
          conv_lhs => rw [← hfront]
          rw [List.take_left]
        have hdrop : (buf.take off ++ ch ++ buf.drop (off + ch.length)).drop
              (off + ch.length + rest.flatten.length) =
            buf.drop (off + ch.length + rest.flatten.length) := by
          conv_lhs => rw [show off + ch.length + rest.flatten.length =
            (buf.take off ++ ch).length + rest.flatten.length from by rw [hfront]]
          rw [List.drop_append, List.drop_drop]
        rw [htake, hdrop]
        simp only [List.flatten_cons, List.length_append, List.append_assoc, Nat.add_assoc]
      · rw [if_neg hcond,
          if_neg (by simp only [List.flatten_cons, List.length_append]; omega)]
    · rw [if_neg (by omega)]
      rw [if_neg (by simp only [List.flatten_cons, List.length_append]; omega)]

theorem joinChunks_spec (cs : List (List Nat)) (ts : Nat) :
    joinChunks cs ts =
      if cs.flatten.length ≤ ts then
        some (cs.flatten ++ List.replicate (ts - cs.flatten.length) 0)
      else none := by
  unfold joinChunks
  rw [joinLoop_spec cs 0 _ (by simp)]
  simp only [Nat.zero_add, List.length_replicate, List.take_zero, List.nil_append,
    List.drop_replicate]

/-! ### Chunk collection and store lemmas -/

theorem collectChunks_eq_none (store : Store) (id : String) :
    ∀ (n i : Nat), i < n → store.chunk id i = none →
      collectChunks store id n = none := by
  intro n
  induction n with
  | zero => intro i hi; omega
  | succ n ih =>
    intro i hi hmiss
    rcases Nat.lt_or_ge i n with h | h
    · simp only [collectChunks, ih i h hmiss]
    · have hin : i = n := by omega
      subst hin
      simp only [collectChunks]
      rcases collectChunks store id i with _ | acc
      · rfl
      · simp only [hmiss]

theorem collectChunks_congr (s1 s2 : Store) (id : String) :
    ∀ (n : Nat), (∀ i, i < n → s1.chunk id i = s2.chunk id i) →
      collectChunks s1 id n = collectChunks s2 id n := by
  intro n
  induction n with
  | zero => intro _; rfl
  | succ n ih =>
    intro h
    simp only [collectChunks, ih (fun i hi => h i (by omega)), h n (by omega)]

theorem collectChunks_all_present (store : Store) (id : String) (g : Nat → List Nat) :
    ∀ (n : Nat), (∀ i, i < n → store.chunk id i = some (g i)) →
      collectChunks store id n = some ((List.range n).map g) := by
  intro n
  induction n with
  | zero => intro _; rfl
  | succ n ih =>
    intro h
    simp only [collectChunks, ih (fun i hi => h i (by omega)), h n (by omega),
      List.range_succ, List.map_append, List.map_cons, List.map_nil]

theorem chunkCount_eq (L c : Nat) (hc : 1 ≤ c) :
    chunkCount L c = L / c + (if L % c = 0 then 0 else 1) := by
  have hqr := Nat.div_add_mod L c
  have hr : L % c < c := Nat.mod_lt _ (by omega)
  by_cases hr0 : L % c = 0
  · have h1 : L + c - 1 = c * (L / c) + (c - 1) := by omega
    have h2 : (c - 1) / c = 0 := Nat.div_eq_of_lt (by omega)
    have h3 : chunkCount L c = L / c := by
      calc chunkCount L c = (L + c - 1) / c := rfl
        _ = (c * (L / c) + (c - 1)) / c := by rw [h1]
        _ = L / c + (c - 1) / c := Nat.mul_add_div (by omega) _ _
        _ = L / c := by rw [h2, Nat.add_zero]
    rw [h3, if_pos hr0, Nat.add_zero]
  · have hexp : c * (L / c + 1) = c * (L / c) + c := by ring
    have h1 : L + c - 1 = c * (L / c + 1) + (L % c - 1) := by omega
    have h2 : (L % c - 1) / c = 0 := Nat.div_eq_of_lt (by omega)
    have h3 : chunkCount L c = L / c + 1 := by
      calc chunkCount L c = (L + c - 1) / c := rfl
        _ = (c * (L / c + 1) + (L % c - 1)) / c := by rw [h1]
        _ = L / c + 1 + (L % c - 1) / c := Nat.mul_add_div (by omega) _ _
        _ = L / c + 1 := by rw [h2, Nat.add_zero]
    rw [h3, if_neg hr0]

/-! ### Claim theorems: chunk codec -/

/-- Claim C2: for every payload `P` (any length, 0 included) and every
`chunkSize ≥ 1`, reassembling the chunks produced by `split` in index order
yields exactly `P`: `join(split(P, chunkSize)) = P`. -/
theorem c2_split_join_round_trip (p : List Nat) (c : Nat) (hc : 1 ≤ c) :
    joinChunks (split p c) p.length = some p := by
  rw [joinChunks_spec, split_flatten p c hc]
  simp

/-- Witness for C2 at `P = [1,2,3]`, `chunkSize = 2`. -/
theorem c2_split_join_round_trip_witness :
    joinChunks (split [1, 2, 3] 2) 3 = some [1, 2, 3] :=
  c2_split_join_round_trip [1, 2, 3] 2 (by decide)

/-- Claim C6, counterexample: with one stored chunk `[1]` and a declared
`totalSize = 2`, the code's join does NOT fail although the concatenated
chunk length (1) differs from `totalSize` (2): it returns the zero-padded
buffer `[1, 0]`, and the read path serves it as 200 bytes, so the
"fails with IntegrityError whenever ... the concatenated length of the
present chunks does not equal totalSize" part of the claim is false. -/
theorem c6_counterexample :
    joinChunks [[1]] 2 = some [1, 0] ∧
    serveImage (fun _ => none)
      ⟨fun _ => none,
       fun i => if i = "x" then some ⟨"a", "t", 2, 1, 0, "d", true⟩ else none,
       fun i j => if i = "x" ∧ j = 0 then some [1] else none⟩ "x" =
      .ok [1, 0] "t" ∧
    ([1, 0] : List Nat) ≠ [1] := by
  refine ⟨by decide, by decide, by decide⟩

/-- Claim C6 as amended: join concatenates the chunks in index order into a
zero-initialized buffer of `totalSize` bytes; any payload it returns has
exactly `totalSize` bytes; it fails when the concatenation would overflow
`totalSize`; but when the concatenation is SHORTER than `totalSize` it does
not fail — it returns the zero-padded buffer (a missing chunk index is
caught earlier, by the read loop, see C5). -/
theorem c6_join_zero_pads (cs : List (List Nat)) (ts : Nat) :
    joinChunks cs ts =
      (if cs.flatten.length ≤ ts then
        some (cs.flatten ++ List.replicate (ts - cs.flatten.length) 0)
      else none) ∧
    ∀ out, joinChunks cs ts = some out → out.length = ts := by
  refine ⟨joinChunks_spec cs ts, ?_⟩
  intro out hout
  rw [joinChunks_spec] at hout
  by_cases h : cs.flatten.length ≤ ts
  · rw [if_pos h] at hout
    cases hout
    simp only [List.length_append, List.length_replicate]
    omega
  · rw [if_neg h] at hout
    cases hout

/-- Witness for C6 (amended) at `chunks = [[1]]`, `totalSize = 2`. -/
theorem c6_join_zero_pads_witness : ([1, 0] : List Nat).length = 2 :=
  (c6_join_zero_pads [[1]] 2).2 [1, 0] (by decide)

theorem split_getD (p : List Nat) (c i : Nat) (hi : i < chunkCount p.length c) :
    (split p c).getD i [] = sliceChunk p c i := by
  rw [List.getD_eq_getElem?_getD]
  unfold split
  rw [List.getElem?_map, List.getElem?_range hi]
  rfl

/-- Claim C8: for a payload of length `L` and chunk size `C ≥ 1`, `split` is
a function (hence deterministic) producing exactly `ceil(L/C)` chunks; every
chunk but the last has length `C`; the last chunk has length `L mod C`
(or `C` when `C` divides `L`); a zero-length payload yields zero chunks, and
joining those zero chunks back at size 0 returns the empty payload. -/
theorem c8_split_shape (p : List Nat) (c : Nat) (hc : 1 ≤ c) :
    (split p c).length = chunkCount p.length c ∧
    chunkCount p.length c = p.length / c + (if p.length % c = 0 then 0 else 1) ∧
    (∀ i, i + 1 < (split p c).length → ((split p c).getD i []).length = c) ∧
    (∀ i, i + 1 = (split p c).length →
      ((split p c).getD i []).length =
        if p.length % c = 0 then c else p.length % c) ∧
    (p.length = 0 → split p c = [] ∧ joinChunks (split p c) p.length = some []) := by
  have hlen : (split p c).length = chunkCount p.length c := by
    simp [split]
  have hub := chunkCount_mul_le p.length c
  have hlb := le_chunkCount_mul p.length c hc
  refine ⟨hlen, chunkCount_eq p.length c hc, ?_, ?_, ?_⟩
  · intro i hi
    rw [hlen] at hi
    rw [split_getD p c i (by omega), sliceChunk_eq_take]
    simp only [List.length_take, List.length_drop]
    have hmul : (i + 2) * c ≤ chunkCount p.length c * c :=
      Nat.mul_le_mul_right c (by omega)
    have hexp : (i + 2) * c = i * c + c + c := by ring
    omega
  · intro i hi
    rw [hlen] at hi
    rw [split_getD p c i (by omega), sliceChunk_eq_take]
    simp only [List.length_take, List.length_drop]
    have hqr := Nat.div_add_mod p.length c
    have hr : p.length % c < c := Nat.mod_lt _ (by omega)
    have hcc := chunkCount_eq p.length c hc
    by_cases hr0 : p.length % c = 0
    · rw [if_pos hr0]
      rw [if_pos hr0, Nat.add_zero] at hcc
      have hq1 : 1 ≤ p.length / c := by omega
      have hexp : (p.length / c) * c = (p.length / c - 1) * c + c := by
        have h5 : p.length / c = (p.length / c - 1) + 1 := by omega
        calc (p.length / c) * c = ((p.length / c - 1) + 1) * c := by rw [← h5]
          _ = (p.length / c - 1) * c + c := by ring
      have hiq : i = p.length / c - 1 := by omega
      have hL : p.length = c * (p.length / c) := by omega
      have hcm : c * (p.length / c) = (p.length / c) * c := Nat.mul_comm _ _
      subst hiq
      omega
    · rw [if_neg hr0]
      rw [if_neg hr0] at hcc
      have hiq : i = p.length / c := by omega
      have hcm : c * (p.length / c) = (p.length / c) * c := Nat.mul_comm _ _
      subst hiq
      omega
  · intro h0
    have hnil : split p c = [] := by
      apply List.eq_nil_of_length_eq_zero
      rw [hlen, h0]
      unfold chunkCount
      exact Nat.div_eq_of_lt (by omega)
    rw [hnil, h0]
    exact ⟨rfl, rfl⟩

/-- Witness for C8 at `P = [1,2,3,4,5]`, `C = 2`: 3 chunks, the last of
length `5 mod 2 = 1`. -/
theorem c8_split_shape_witness :
    (split [1, 2, 3, 4, 5] 2).length = chunkCount 5 2 ∧
    ((split [1, 2, 3, 4, 5] 2).getD 2 []).length =
      if (5 : Nat) % 2 = 0 then 2 else 5 % 2 :=
  ⟨(c8_split_shape [1, 2, 3, 4, 5] 2 (by decide)).1,
   (c8_split_shape [1, 2, 3, 4, 5] 2 (by decide)).2.2.2.1 2 (by decide)⟩

/-! ### Claim theorems: read path -/

/-- Claim C5: on read, a missing metadata record gives the 404 response
(NotFound); metadata with `completed = false` gives the 404 response
(Incomplete); and metadata with `completed = true` but some chunk record
with index in `[0, chunkCount)` missing gives the 500 integrity response,
never bytes.  The two 404 cases hold at the repository level, i.e. when the
in-memory cache has no entry for the id (the cache is consulted first and,
per the design, is authoritative on a hit); the NotFound case holds even on
a cache hit, since the handler re-checks the metadata. -/
theorem c5_read_error_cases (cache : String → Option (List Nat)) (store : Store)
    (id : String) :
    (store.meta id = none →
      serveImage cache store id = .notFound ∧
      (serveImage cache store id).httpStatus = 404) ∧
    (∀ m, cache id = none → store.meta id = some m → m.completed = false →
      serveImage cache store id = .notFound ∧
      (serveImage cache store id).httpStatus = 404) ∧
    (∀ m i, cache id = none → store.meta id = some m → m.completed = true →
      i < m.chunks → store.chunk id i = none →
      serveImage cache store id = .integrityError ∧
      (serveImage cache store id).httpStatus = 500) := by
  refine ⟨?_, ?_, ?_⟩
  · intro hm
    have hcore : serveCore store id = ReadResult.notFound := by
      unfold serveCore
      rw [hm]
    have himg : serveImage cache store id = ReadResult.notFound := by
      unfold serveImage
      rcases hcc : cache id with _ | cb
      · exact hcore
      · rw [hm]
        exact hcore
    exact ⟨himg, by rw [himg]; rfl⟩
  · intro m hcc hm hmc
    have hcore : serveCore store id = ReadResult.notFound := by
      unfold serveCore
      rw [hm]
      simp [hmc]
    have himg : serveImage cache store id = ReadResult.notFound := by
      unfold serveImage
      rw [hcc]
      exact hcore
    exact ⟨himg, by rw [himg]; rfl⟩
  · intro m i hcc hm hmc hi hmiss
    have hnone := collectChunks_eq_none store id m.chunks i hi hmiss
    have hcore : serveCore store id = ReadResult.integrityError := by
      unfold serveCore
      rw [hm]
      simp [hmc, hnone]
    have himg : serveImage cache store id = ReadResult.integrityError := by
      unfold serveImage
      rw [hcc]
      exact hcore
    exact ⟨himg, by rw [himg]; rfl⟩

/-- Witness for C5: a store whose only object "x" has `completed = false`
metadata and no chunks, read with an empty cache, answers 404. -/
theorem c5_read_error_cases_witness :
    serveImage (fun _ => none)
      ⟨fun _ => none,
       fun i => if i = "x" then some ⟨"a", "t", 1, 1, 0, "d", false⟩ else none,
       fun _ _ => none⟩ "x" = .notFound :=
  ((c5_read_error_cases (fun _ => none)
      ⟨fun _ => none,
       fun i => if i = "x" then some ⟨"a", "t", 1, 1, 0, "d", false⟩ else none,
       fun _ _ => none⟩ "x").2.1
    ⟨"a", "t", 1, 1, 0, "d", false⟩ rfl (by decide) rfl).1

/-- Claim C10: the read of an object fetches exactly the chunk records with
indices `0..chunkCount-1` of its current metadata, so a chunk record stored
under the same id at any index `≥ chunkCount` (e.g. left over from an
earlier larger incomplete write) never influences the response. -/
theorem c10_stale_chunks_ignored (cache : String → Option (List Nat))
    (store : Store) (id : String) (m : ImageMeta) (j : Nat) (data : List Nat)
    (hm : store.meta id = some m) (hj : m.chunks ≤ j) :
    serveImage cache (applyOp store (KvOp.setChunk id j data)) id =
      serveImage cache store id := by
  have hmeta : (applyOp store (KvOp.setChunk id j data)).meta = store.meta := rfl
  have hchunks : ∀ i, i < m.chunks →
      (applyOp store (KvOp.setChunk id j data)).chunk id i = store.chunk id i := by
    intro i hi
    simp only [applyOp]
    rw [if_neg]
    intro hcon
    exact absurd hcon.2 (by omega)
  have hcc := collectChunks_congr (applyOp store (KvOp.setChunk id j data)) store id
    m.chunks hchunks
  have hscore : serveCore (applyOp store (KvOp.setChunk id j data)) id
      = serveCore store id := by
    unfold serveCore
    rw [hmeta]
    simp only [hm]
    rw [hcc]
  unfold serveImage
  rw [hmeta]
  rcases hcch : cache id with _ | cb
  · exact hscore
  · simp only [hm]

/-- Witness for C10: adding a stray chunk at index 5 to a completed
single-chunk object leaves the read response unchanged. -/
theorem c10_stale_chunks_ignored_witness :
    serveImage (fun _ => none)
      (applyOp
        ⟨fun _ => none,
         fun i => if i = "x" then some ⟨"a", "t", 1, 1, 0, "d", true⟩ else none,
         fun i j => if i = "x" ∧ j = 0 then some [9] else none⟩
        (KvOp.setChunk "x" 5 [7, 7])) "x" =
    serveImage (fun _ => none)
      ⟨fun _ => none,
       fun i => if i = "x" then some ⟨"a", "t", 1, 1, 0, "d", true⟩ else none,
       fun i j => if i = "x" ∧ j = 0 then some [9] else none⟩ "x" :=
  c10_stale_chunks_ignored (fun _ => none) _ "x" ⟨"a", "t", 1, 1, 0, "d", true⟩ 5
    [7, 7] rfl (by decide)

/-! ### Claim theorems: upload URLs -/

/-- Claim C7, counterexample: re-uploading `a.png` whose digest already maps
to the completed object `id0` yields status "cached" with URL
`http://h/image/id0` — WITHOUT the `.png` extension the claim requires for
every successful outcome (the cached branch, src/main.ts line 64, omits it). -/
theorem c7_counterexample :
    (processFileOk (fun _ => "d") "fresh" 5 "http://h"
      ⟨fun d => if d = "d" then some "id0" else none,
       fun i => if i = "id0" then some ⟨"old.png", "image/png", 1, 1, 0, "d", true⟩
                else none,
       fun _ _ => none⟩
      ⟨"a.png", "image/png", [9]⟩).1 =
      { name := "a.png", url := some "http://h/image/id0", error := none,
        status := "cached" } ∧
    some "http://h/image/id0" ≠ some "http://h/image/id0.png" := by
  refine ⟨by decide, by decide⟩

/-- Claim C7 as amended: for "uploaded" and "overwritten" outcomes the
public URL is `{origin}/image/{objectId}{.extension}` (extension = the
filename's trailing dot-segment when the filename contains a dot and that
segment is nonempty); for "cached" outcomes the URL is
`{origin}/image/{objectId}` with no extension. -/
theorem c7_public_url (hash : List Nat → String) (freshId : String) (now : Nat)
    (origin : String) (store : Store) (f : FileData) :
    ((processFileOk hash freshId now origin store f).1.status = "cached" →
      (processFileOk hash freshId now origin store f).1.url =
        some (origin ++ "/image/" ++ uploadTargetId hash freshId store f.bytes)) ∧
    ((processFileOk hash freshId now origin store f).1.status = "uploaded" ∨
      (processFileOk hash freshId now origin store f).1.status = "overwritten" →
      (processFileOk hash freshId now origin store f).1.url =
        some (origin ++ "/image/" ++ uploadTargetId hash freshId store f.bytes ++
          extSuffix f.name)) := by
  rcases hmm : store.md5ToId (hash f.bytes) with _ | eid
  · constructor
    · intro h
      simp only [processFileOk, hmm] at h
      exact absurd h (by decide)
    · intro _
      simp [processFileOk, uploadTargetId, hmm]
  · rcases hme : store.meta eid with _ | m
    · constructor
      · intro h
        simp only [processFileOk, hmm, hme] at h
        exact absurd h (by decide)
      · intro _
        simp [processFileOk, uploadTargetId, hmm, hme]
    · by_cases hcomp : m.completed = true
      · constructor
        · intro _
          simp [processFileOk, uploadTargetId, hmm, hme, hcomp]
        · intro h
          simp only [processFileOk, hmm, hme, hcomp, if_true] at h
          rcases h with h | h
          · exact absurd h (by decide)
          · exact absurd h (by decide)
      · constructor
        · intro h
          simp only [processFileOk, hmm, hme, if_neg hcomp] at h
          exact absurd h (by decide)
        · intro _
          simp [processFileOk, uploadTargetId, hmm, hme, hcomp]

/-- Witness for C7 (amended): a fresh upload of `a.png` gets the extension
suffix in its URL. -/
theorem c7_public_url_witness :
    (processFileOk (fun _ => "d") "i1" 0 "http://h"
      ⟨fun _ => none, fun _ => none, fun _ _ => none⟩ ⟨"a.png", "t", [9]⟩).1.url =
      some ("http://h" ++ "/image/" ++
        uploadTargetId (fun _ => "d") "i1"
          ⟨fun _ => none, fun _ => none, fun _ _ => none⟩ [9] ++
        extSuffix "a.png") :=
  (c7_public_url (fun _ => "d") "i1" 0 "http://h"
      ⟨fun _ => none, fun _ => none, fun _ _ => none⟩ ⟨"a.png", "t", [9]⟩).2
    (Or.inl (rfl))

/-! ### Store-effect lemmas for the write protocol -/

theorem applyBatches_append (s : Store) (l1 l2 : List (List KvOp)) :
    applyBatches s (l1 ++ l2) = applyBatches (applyBatches s l1) l2 :=
  List.foldl_append _ _ _ _

/-- Readers must find the object either absent or marked incomplete. -/
def MetaSafe (tid : String) (s : Store) : Prop :=
  s.meta tid = none ∨ ∃ m, s.meta tid = some m ∧ m.completed = false

theorem metaSafe_foldl (tid : String) :
    ∀ (ops : List KvOp) (s : Store), MetaSafe tid s →
      (∀ op ∈ ops, ∀ m, op = KvOp.setMeta tid m → m.completed = false) →
      MetaSafe tid (ops.foldl applyOp s) := by
  intro ops
  induction ops with
  | nil => intro s hs _; exact hs
  | cons op rest ih =>
    intro s hs hops
    simp only [List.foldl_cons]
    apply ih
    · rcases op with ⟨id2, m2⟩ | ⟨id2, i2, d2⟩ | ⟨d2, id2⟩
      · by_cases hid : tid = id2
        · right
          refine ⟨m2, ?_, ?_⟩
          · simp [applyOp, hid]
          · exact hops (KvOp.setMeta id2 m2) (by simp) m2 (by rw [hid])
        · have hsame : (applyOp s (KvOp.setMeta id2 m2)).meta tid = s.meta tid := by
            simp [applyOp, hid]
          unfold MetaSafe
          rw [hsame]
          exact hs
      · exact hs
      · exact hs
    · intro op2 hop2 m2 hm2
      exact hops op2 (by simp [hop2]) m2 hm2

theorem metaSafe_applyBatches (tid : String) :
    ∀ (bs : List (List KvOp)) (s : Store), MetaSafe tid s →
      (∀ b ∈ bs, ∀ op ∈ b, ∀ m, op = KvOp.setMeta tid m → m.completed = false) →
      MetaSafe tid (applyBatches s bs) := by
  intro bs
  induction bs with
  | nil => intro s hs _; exact hs
  | cons b rest ih =>
    intro s hs hbs
    show MetaSafe tid (applyBatches (applyBatch s b) rest)
    exact ih (applyBatch s b)
      (metaSafe_foldl tid b s hs (hbs b (by simp)))
      (fun b2 hb2 => hbs b2 (by simp [hb2]))

theorem serveImage_notFound_of_metaSafe (cache : String → Option (List Nat))
    (store : Store) (tid : String) (hc : cache tid = none)
    (hs : MetaSafe tid store) :
    serveImage cache store tid = .notFound := by
  have hcore : serveCore store tid = ReadResult.notFound := by
    unfold serveCore
    rcases hs with h | ⟨m, hm, hmc⟩
    · rw [h]
    · rw [hm]
      simp [hmc]
  unfold serveImage
  rw [hc]
  exact hcore

theorem md5_foldl_unchanged :
    ∀ (ops : List KvOp) (s : Store),
      (∀ op ∈ ops, ∀ d i, op ≠ KvOp.setMd5 d i) →
      (ops.foldl applyOp s).md5ToId = s.md5ToId := by
  intro ops
  induction ops with
  | nil => intro s _; rfl
  | cons op rest ih =>
    intro s h
    simp only [List.foldl_cons]
    rw [ih _ (fun op2 h2 d i => h op2 (by simp [h2]) d i)]
    rcases op with ⟨id2, m2⟩ | ⟨id2, i2, d2⟩ | ⟨d2, id2⟩
    · rfl
    · rfl
    · exact absurd rfl (h _ (by simp) d2 id2)

theorem md5_applyBatches_unchanged :
    ∀ (bs : List (List KvOp)) (s : Store),
      (∀ b ∈ bs, ∀ op ∈ b, ∀ d i, op ≠ KvOp.setMd5 d i) →
      (applyBatches s bs).md5ToId = s.md5ToId := by
  intro bs
  induction bs with
  | nil => intro s _; rfl
  | cons b rest ih =>
    intro s h
    show (applyBatches (applyBatch s b) rest).md5ToId = s.md5ToId
    rw [ih _ (fun b2 h2 => h b2 (by simp [h2]))]
    exact md5_foldl_unchanged b s (h b (by simp))

theorem reads_notFound_aux (cache : String → Option (List Nat)) (store : Store)
    (tid : String) (front : List (List KvOp)) (lastb : List KvOp)
    (hcache : cache tid = none) (hinit : MetaSafe tid store)
    (hfront : ∀ b ∈ front, ∀ op ∈ b, ∀ m, op = KvOp.setMeta tid m →
      m.completed = false) :
    ∀ k, k < (front ++ [lastb]).length →
      serveImage cache (applyBatches store ((front ++ [lastb]).take k)) tid =
        .notFound := by
  intro k hk
  have hkle : k ≤ front.length := by
    simp only [List.length_append, List.length_cons, List.length_nil] at hk
    omega
  rw [List.take_append_of_le_length hkle]
  apply serveImage_notFound_of_metaSafe cache _ tid hcache
  apply metaSafe_applyBatches tid _ store hinit
  intro b hb
  exact hfront b (List.take_subset k front hb)

/-! ### Claim theorems: two-phase write -/

/-- Claim C1: every byte-storing upload (new digest, or overwrite of an
object that is absent or incomplete) issues exactly this write sequence:
first the atomic batch carrying the metadata with `completed = false` (plus
the digest index entry for a new digest), then one chunk write per index in
order `0..chunkCount-1`, and only then the final metadata write with
`completed = true`; and a read of the object interleaved after any proper
prefix of those writes (the in-memory cache having no entry for the id)
answers the 404 NotFound/Incomplete response — never truncated or corrupt
bytes. -/
theorem c1_two_phase_write (hash : List Nat → String) (freshId : String) (now : Nat)
    (origin : String) (cache : String → Option (List Nat)) (store : Store)
    (f : FileData)
    (hbranch : ∀ i m, store.md5ToId (hash f.bytes) = some i →
      store.meta i = some m → m.completed = false)
    (hfresh : store.meta freshId = none)
    (hcache : cache (uploadTargetId hash freshId store f.bytes) = none) :
    (processFileOk hash freshId now origin store f).2 =
      (match store.md5ToId (hash f.bytes) with
        | some _ =>
          [[KvOp.setMeta (uploadTargetId hash freshId store f.bytes)
              (mkMeta f now (hash f.bytes) false)]]
        | none =>
          [[KvOp.setMeta (uploadTargetId hash freshId store f.bytes)
              (mkMeta f now (hash f.bytes) false),
            KvOp.setMd5 (hash f.bytes) (uploadTargetId hash freshId store f.bytes)]]) ++
      (List.range (chunkCount f.bytes.length KV_CHUNK_SIZE)).map
        (fun i => [KvOp.setChunk (uploadTargetId hash freshId store f.bytes) i
          (sliceChunk f.bytes KV_CHUNK_SIZE i)]) ++
      [[KvOp.setMeta (uploadTargetId hash freshId store f.bytes)
          (mkMeta f now (hash f.bytes) true)]] ∧
    (∀ k, k < (processFileOk hash freshId now origin store f).2.length →
      serveImage cache
        (applyBatches store ((processFileOk hash freshId now origin store f).2.take k))
        (uploadTargetId hash freshId store f.bytes) = .notFound) := by
  rcases hmm : store.md5ToId (hash f.bytes) with _ | eid
  · have htid : uploadTargetId hash freshId store f.bytes = freshId := by
      simp [uploadTargetId, hmm]
    have hbs : (processFileOk hash freshId now origin store f).2 =
        [[KvOp.setMeta freshId (mkMeta f now (hash f.bytes) false),
          KvOp.setMd5 (hash f.bytes) freshId]] ++
        (List.range (chunkCount f.bytes.length KV_CHUNK_SIZE)).map
          (fun i => [KvOp.setChunk freshId i (sliceChunk f.bytes KV_CHUNK_SIZE i)]) ++
        [[KvOp.setMeta freshId (mkMeta f now (hash f.bytes) true)]] := by
      simp only [processFileOk, hmm]
    constructor
    · rw [hbs, htid]
    · rw [htid] at hcache ⊢
      intro k hk
      rw [hbs] at hk ⊢
      apply reads_notFound_aux cache store freshId _ _ hcache (Or.inl hfresh) _ k hk
      intro b hb op hop m hm
      rcases List.mem_append.mp hb with hb | hb
      · have hbeq : b = [KvOp.setMeta freshId (mkMeta f now (hash f.bytes) false),
            KvOp.setMd5 (hash f.bytes) freshId] := by
          simpa using hb
        subst hbeq
        simp only [List.mem_cons, List.not_mem_nil, or_false] at hop
        rcases hop with hop | hop
        · subst hop
          injection hm with h1 h2
          rw [← h2]
          rfl
        · subst hop
          exact KvOp.noConfusion hm
      · obtain ⟨i, _, hbeq⟩ := List.mem_map.mp hb
        subst hbeq
        simp only [List.mem_cons, List.not_mem_nil, or_false] at hop
        subst hop
        exact KvOp.noConfusion hm
  · have htid : uploadTargetId hash freshId store f.bytes = eid := by
      simp [uploadTargetId, hmm]
    have hinit : MetaSafe eid store := by
      rcases hme : store.meta eid with _ | m
      · exact Or.inl hme
      · exact Or.inr ⟨m, hme, hbranch eid m hmm hme⟩
    have hbs : (processFileOk hash freshId now origin store f).2 =
        [[KvOp.setMeta eid (mkMeta f now (hash f.bytes) false)]] ++
        (List.range (chunkCount f.bytes.length KV_CHUNK_SIZE)).map
          (fun i => [KvOp.setChunk eid i (sliceChunk f.bytes KV_CHUNK_SIZE i)]) ++
        [[KvOp.setMeta eid (mkMeta f now (hash f.bytes) true)]] := by
      rcases hme : store.meta eid with _ | m
      · simp only [processFileOk, hmm, hme]
      · have hcf : m.completed = false := hbranch eid m hmm hme
        simp only [processFileOk, hmm, hme, hcf]
        simp
    constructor
    · rw [hbs, htid]
    · rw [htid] at hcache ⊢
      intro k hk
      rw [hbs] at hk ⊢
      apply reads_notFound_aux cache store eid _ _ hcache hinit _ k hk
      intro b hb op hop m hm
      rcases List.mem_append.mp hb with hb | hb
      · have hbeq : b = [KvOp.setMeta eid (mkMeta f now (hash f.bytes) false)] := by
          simpa using hb
        subst hbeq
        simp only [List.mem_cons, List.not_mem_nil, or_false] at hop
        subst hop
        injection hm with h1 h2
        rw [← h2]
        rfl
      · obtain ⟨i, _, hbeq⟩ := List.mem_map.mp hb
        subst hbeq
        simp only [List.mem_cons, List.not_mem_nil, or_false] at hop
        subst hop
        exact KvOp.noConfusion hm

/-- Witness for C1: after only the first write batch of a fresh single-chunk
upload (metadata with `completed = false`), a read answers 404. -/
theorem c1_two_phase_write_witness :
    serveImage (fun _ => none)
      (applyBatches ⟨fun _ => none, fun _ => none, fun _ _ => none⟩
        ((processFileOk (fun _ => "d") "i1" 0 "o"
          ⟨fun _ => none, fun _ => none, fun _ _ => none⟩ ⟨"a.png", "t", [7]⟩).2.take 1))
      (uploadTargetId (fun _ => "d") "i1"
        ⟨fun _ => none, fun _ => none, fun _ _ => none⟩ [7]) = .notFound :=
  (c1_two_phase_write (fun _ => "d") "i1" 0 "o" (fun _ => none)
      ⟨fun _ => none, fun _ => none, fun _ _ => none⟩ ⟨"a.png", "t", [7]⟩
      (fun i m h => by simp at h) rfl rfl).2 1 (by decide)

theorem runFile_new_digest (hash : List Nat → String) (id1 : String) (now : Nat)
    (origin : String) (store : Store) (f : FileData)
    (h : store.md5ToId (hash f.bytes) = none) :
    (runFile hash id1 now origin store f).md5ToId (hash f.bytes) = some id1 ∧
    (runFile hash id1 now origin store f).meta id1 =
      some (mkMeta f now (hash f.bytes) true) := by
  have hbs : (processFileOk hash id1 now origin store f).2 =
      [[KvOp.setMeta id1 (mkMeta f now (hash f.bytes) false),
        KvOp.setMd5 (hash f.bytes) id1]] ++
      (List.range (chunkCount f.bytes.length KV_CHUNK_SIZE)).map
        (fun i => [KvOp.setChunk id1 i (sliceChunk f.bytes KV_CHUNK_SIZE i)]) ++
      [[KvOp.setMeta id1 (mkMeta f now (hash f.bytes) true)]] := by
    simp only [processFileOk, h]
  unfold runFile
  rw [hbs]
  constructor
  · rw [List.append_assoc, applyBatches_append]
    have hno : ∀ b ∈ ((List.range (chunkCount f.bytes.length KV_CHUNK_SIZE)).map
          (fun i => [KvOp.setChunk id1 i (sliceChunk f.bytes KV_CHUNK_SIZE i)]) ++
        [[KvOp.setMeta id1 (mkMeta f now (hash f.bytes) true)]]),
        ∀ op ∈ b, ∀ d i, op ≠ KvOp.setMd5 d i := by
      intro b hb op hop d i heq
      rcases List.mem_append.mp hb with hb | hb
      · obtain ⟨j, _, hbeq⟩ := List.mem_map.mp hb
        subst hbeq
        simp only [List.mem_cons, List.not_mem_nil, or_false] at hop
        subst hop
        exact KvOp.noConfusion heq
      · have hbeq : b = [KvOp.setMeta id1 (mkMeta f now (hash f.bytes) true)] := by
          simpa using hb
        subst hbeq
        simp only [List.mem_cons, List.not_mem_nil, or_false] at hop
        subst hop
        exact KvOp.noConfusion heq
    rw [md5_applyBatches_unchanged _ _ hno]
    show (applyBatch store [KvOp.setMeta id1 (mkMeta f now (hash f.bytes) false),
      KvOp.setMd5 (hash f.bytes) id1]).md5ToId (hash f.bytes) = some id1
    simp [applyBatch, applyOp]
  · rw [applyBatches_append]
    show (applyBatch (applyBatches store _)
      [KvOp.setMeta id1 (mkMeta f now (hash f.bytes) true)]).meta id1 = _
    simp [applyBatch, applyOp]

/-- Claim C3: uploading bytes whose digest already maps to a COMPLETED
object — in particular the same exact bytes a second time after a first
upload completed — returns the first upload's object id, reports status
"cached", and issues zero KV writes (in particular zero chunk writes), so
no stored bytes change. -/
theorem c3_dedup_idempotent (hash : List Nat → String) (id1 id2 : String)
    (now1 now2 : Nat) (origin1 origin2 : String) (store : Store)
    (n1 t1 n2 t2 : String) (p : List Nat)
    (h : store.md5ToId (hash p) = none) :
    (processFileOk hash id1 now1 origin1 store ⟨n1, t1, p⟩).1.status = "uploaded" ∧
    (processFileOk hash id2 now2 origin2
        (runFile hash id1 now1 origin1 store ⟨n1, t1, p⟩) ⟨n2, t2, p⟩).1.status =
      "cached" ∧
    (processFileOk hash id2 now2 origin2
        (runFile hash id1 now1 origin1 store ⟨n1, t1, p⟩) ⟨n2, t2, p⟩).1.url =
      some (origin2 ++ "/image/" ++ id1) ∧
    (processFileOk hash id2 now2 origin2
        (runFile hash id1 now1 origin1 store ⟨n1, t1, p⟩) ⟨n2, t2, p⟩).2 = [] ∧
    runFile hash id2 now2 origin2 (runFile hash id1 now1 origin1 store ⟨n1, t1, p⟩)
        ⟨n2, t2, p⟩ =
      runFile hash id1 now1 origin1 store ⟨n1, t1, p⟩ := by
  obtain ⟨hm5, hmeta⟩ := runFile_new_digest hash id1 now1 origin1 store ⟨n1, t1, p⟩ h
  have hs1 : (processFileOk hash id1 now1 origin1 store ⟨n1, t1, p⟩).1.status =
      "uploaded" := by
    simp only [processFileOk, h]
  have hsnd : processFileOk hash id2 now2 origin2
      (runFile hash id1 now1 origin1 store ⟨n1, t1, p⟩) ⟨n2, t2, p⟩ =
      ({ name := n2
         url := some (origin2 ++ "/image/" ++ id1)
         error := none
         status := "cached" }, []) := by
    simp only [processFileOk, hm5, hmeta]
    simp [mkMeta]
  refine ⟨hs1, ?_, ?_, ?_, ?_⟩
  · rw [hsnd]
  · rw [hsnd]
  · rw [hsnd]
  · have hrf : runFile hash id2 now2 origin2
        (runFile hash id1 now1 origin1 store ⟨n1, t1, p⟩) ⟨n2, t2, p⟩ =
        applyBatches (runFile hash id1 now1 origin1 store ⟨n1, t1, p⟩)
          (processFileOk hash id2 now2 origin2
            (runFile hash id1 now1 origin1 store ⟨n1, t1, p⟩) ⟨n2, t2, p⟩).2 := rfl
    rw [hrf, hsnd]
    rfl

/-- Witness for C3: two uploads of `[1, 2]` into an empty store. -/
theorem c3_dedup_idempotent_witness :
    (processFileOk (fun _ => "d") "i2" 1 "o"
        (runFile (fun _ => "d") "i1" 0 "o"
          ⟨fun _ => none, fun _ => none, fun _ _ => none⟩ ⟨"a.png", "t", [1, 2]⟩)
        ⟨"b.png", "t", [1, 2]⟩).1.status = "cached" :=
  (c3_dedup_idempotent (fun _ => "d") "i1" "i2" 0 1 "o" "o"
      ⟨fun _ => none, fun _ => none, fun _ _ => none⟩
      "a.png" "t" "b.png" "t" [1, 2] rfl).2.1

/-! ### Claim theorems: digest-index creation race -/

/-- Claim C4, counterexample: the creation transaction has no check
(`kv.atomic()` with only `set`s, src/main.ts lines 122-130), so it cannot
fail.  In the interleaving where two uploads of the same new digest "d" both
perform their index lookup (line 55) against the empty store before either
commits, both take the new-object branch with distinct fresh ids: both
report "uploaded" with their own id in the URL, the loser never re-resolves
to the winner's id, both metadata records exist afterwards, and the last
commit's id "idB" holds the DigestIndex entry while "idA" stays stored but
unindexed — refuting "exactly one object id ever becomes canonical for a
digest" and "the loser re-resolves and reuses the winner's id". -/
theorem c4_counterexample :
    (processFileOk (fun _ => "d") "idA" 0 "o"
      ⟨fun _ => none, fun _ => none, fun _ _ => none⟩
      ⟨"a.png", "t", [1]⟩).1.status = "uploaded" ∧
    (processFileOk (fun _ => "d") "idB" 0 "o"
      ⟨fun _ => none, fun _ => none, fun _ _ => none⟩
      ⟨"a.png", "t", [1]⟩).1.status = "uploaded" ∧
    (processFileOk (fun _ => "d") "idA" 0 "o"
      ⟨fun _ => none, fun _ => none, fun _ _ => none⟩
      ⟨"a.png", "t", [1]⟩).1.url = some "o/image/idA.png" ∧
    (processFileOk (fun _ => "d") "idB" 0 "o"
      ⟨fun _ => none, fun _ => none, fun _ _ => none⟩
      ⟨"a.png", "t", [1]⟩).1.url = some "o/image/idB.png" ∧
    (applyBatches
      (applyBatches ⟨fun _ => none, fun _ => none, fun _ _ => none⟩
        (processFileOk (fun _ => "d") "idA" 0 "o"
          ⟨fun _ => none, fun _ => none, fun _ _ => none⟩ ⟨"a.png", "t", [1]⟩).2)
      (processFileOk (fun _ => "d") "idB" 0 "o"
        ⟨fun _ => none, fun _ => none, fun _ _ => none⟩
        ⟨"a.png", "t", [1]⟩).2).md5ToId "d" = some "idB" ∧
    (applyBatches
      (applyBatches ⟨fun _ => none, fun _ => none, fun _ _ => none⟩
        (processFileOk (fun _ => "d") "idA" 0 "o"
          ⟨fun _ => none, fun _ => none, fun _ _ => none⟩ ⟨"a.png", "t", [1]⟩).2)
      (processFileOk (fun _ => "d") "idB" 0 "o"
        ⟨fun _ => none, fun _ => none, fun _ _ => none⟩
        ⟨"a.png", "t", [1]⟩).2).meta "idA" ≠ none ∧
    (applyBatches
      (applyBatches ⟨fun _ => none, fun _ => none, fun _ _ => none⟩
        (processFileOk (fun _ => "d") "idA" 0 "o"
          ⟨fun _ => none, fun _ => none, fun _ _ => none⟩ ⟨"a.png", "t", [1]⟩).2)
      (processFileOk (fun _ => "d") "idB" 0 "o"
        ⟨fun _ => none, fun _ => none, fun _ _ => none⟩
        ⟨"a.png", "t", [1]⟩).2).meta "idB" ≠ none ∧
    "idA" ≠ "idB" := by
  decide

/-- Claim C4 as amended: when a digest is unindexed, the handler allocates
its fresh id and writes the DigestIndex entry together with the
`completed = false` metadata record in one atomic batch — the head of its
write sequence — and reports "uploaded"; but that transaction is
unconditional: it carries no check against a concurrent creation of the
same digest entry and cannot fail, so a racing loser does not detect the
conflict and does not fall back to the winner's id (see the
counterexample). -/
theorem c4_create_unconditional (hash : List Nat → String) (freshId : String)
    (now : Nat) (origin : String) (store : Store) (f : FileData)
    (h : store.md5ToId (hash f.bytes) = none) :
    (processFileOk hash freshId now origin store f).1.status = "uploaded" ∧
    (processFileOk hash freshId now origin store f).2.head? =
      some [KvOp.setMeta freshId (mkMeta f now (hash f.bytes) false),
        KvOp.setMd5 (hash f.bytes) freshId] := by
  constructor
  · simp only [processFileOk, h]
  · simp only [processFileOk, h]
    rfl

/-- Witness for C4 (amended): a fresh upload into the empty store. -/
theorem c4_create_unconditional_witness :
    (processFileOk (fun _ => "d") "i1" 0 "o"
      ⟨fun _ => none, fun _ => none, fun _ _ => none⟩
      ⟨"a", "t", [1]⟩).1.status = "uploaded" :=
  (c4_create_unconditional (fun _ => "d") "i1" 0 "o"
    ⟨fun _ => none, fun _ => none, fun _ _ => none⟩ ⟨"a", "t", [1]⟩ rfl).1

/-! ### Claim theorems: batch upload handling -/

theorem uploadLoop_length (hash : List Nat → String) (uuid : Nat → String)
    (now : Nat) (origin : String) :
    ∀ (files : List FormEntry) (i : Nat) (store : Store),
      (uploadLoop hash uuid now origin i store files).length = files.length := by
  intro files
  induction files with
  | nil => intro i store; rfl
  | cons e rest ih =>
    intro i store
    simp only [uploadLoop, List.length_cons, ih]

theorem uploadLoop_faulty (hash : List Nat → String) (uuid : Nat → String)
    (now : Nat) (origin : String) :
    ∀ (files : List FormEntry) (i j : Nat) (store : Store), j < files.length →
      entryFails (files.getD j (.str "")) = true →
      ((uploadLoop hash uuid now origin i store files).getD j
        ⟨"", none, none, ""⟩).status = "error" := by
  intro files
  induction files with
  | nil =>
    intro i j store hj
    simp at hj
  | cons e rest ih =>
    intro i j store hj hfail
    cases j with
    | zero =>
      simp only [List.getD_cons_zero] at hfail
      cases e with
      | str s => rfl
      | file f fault =>
        cases fault with
        | none => simp [entryFails] at hfail
        | some err => rfl
    | succ j =>
      simp only [List.getD_cons_succ] at hfail
      simp only [List.length_cons, Nat.succ_lt_succ_iff] at hj
      have hih := ih (i + 1) j
        (applyBatches store (processEntry hash (uuid i) now origin store e).2) hj hfail
      simpa [uploadLoop] using hih

/-- Claim C9: `uploadHandler` processes each submitted file independently —
a failing file (malformed part, or a storage error thrown while processing
it) becomes that file's `status = "error"` entry and does not abort the
other files: the result list always has one entry per file.  The overall
HTTP status is 400 when no files were present, 500 when any entry has
status "error", and 200 otherwise. -/
theorem c9_batch_isolation (hash : List Nat → String) (uuid : Nat → String)
    (now : Nat) (origin : String) (store : Store) (files : List FormEntry) :
    (files = [] → uploadHandler hash uuid now origin store files = (400, [])) ∧
    (files ≠ [] →
      (uploadHandler hash uuid now origin store files).2 =
        uploadLoop hash uuid now origin 0 store files ∧
      (uploadHandler hash uuid now origin store files).2.length = files.length ∧
      (uploadHandler hash uuid now origin store files).1 =
        (if (uploadHandler hash uuid now origin store files).2.any
          (fun r => r.status == "error") then 500 else 200) ∧
      (∀ j, j < files.length → entryFails (files.getD j (.str "")) = true →
        ((uploadHandler hash uuid now origin store files).2.getD j
          ⟨"", none, none, ""⟩).status = "error")) := by
  constructor
  · intro h
    subst h
    rfl
  · intro hne
    have hif : files.isEmpty = false := by
      cases files with
      | nil => exact absurd rfl hne
      | cons e rest => rfl
    have hunf : uploadHandler hash uuid now origin store files =
        ((if (uploadLoop hash uuid now origin 0 store files).any
          (fun r => r.status == "error") then 500 else 200),
          uploadLoop hash uuid now origin 0 store files) := by
      simp [uploadHandler, hif]
    refine ⟨?_, ?_, ?_, ?_⟩
    · rw [hunf]
    · rw [hunf]
      exact uploadLoop_length hash uuid now origin files 0 store
    · rw [hunf]
    · intro j hj hfail
      rw [hunf]
      exact uploadLoop_faulty hash uuid now origin files 0 j store hj hfail

/-- Witness for C9: the spec's batch-isolation scenario — three files where
the second throws a storage error — yields one entry per file, files 1 and 3
"uploaded", file 2 "error", and overall status 500. -/
theorem c9_batch_isolation_witness :
    ((uploadHandler (fun p => if p = [1] then "dA" else "dC") (fun n => if n = 0 then "i1" else "i3") 0 "o"
        ⟨fun _ => none, fun _ => none, fun _ _ => none⟩
        [FormEntry.file ⟨"a.png", "t", [1]⟩ none,
         FormEntry.file ⟨"b.png", "t", [2]⟩ (some "boom"),
         FormEntry.file ⟨"c.png", "t", [3]⟩ none]).2.getD 1
      ⟨"", none, none, ""⟩).status = "error" ∧
    (uploadHandler (fun p => if p = [1] then "dA" else "dC") (fun n => if n = 0 then "i1" else "i3") 0 "o"
        ⟨fun _ => none, fun _ => none, fun _ _ => none⟩
        [FormEntry.file ⟨"a.png", "t", [1]⟩ none,
         FormEntry.file ⟨"b.png", "t", [2]⟩ (some "boom"),
         FormEntry.file ⟨"c.png", "t", [3]⟩ none]).1 = 500 ∧
    ((uploadHandler (fun p => if p = [1] then "dA" else "dC") (fun n => if n = 0 then "i1" else "i3") 0 "o"
        ⟨fun _ => none, fun _ => none, fun _ _ => none⟩
        [FormEntry.file ⟨"a.png", "t", [1]⟩ none,
         FormEntry.file ⟨"b.png", "t", [2]⟩ (some "boom"),
         FormEntry.file ⟨"c.png", "t", [3]⟩ none]).2.getD 0
      ⟨"", none, none, ""⟩).status = "uploaded" ∧
    ((uploadHandler (fun p => if p = [1] then "dA" else "dC") (fun n => if n = 0 then "i1" else "i3") 0 "o"
        ⟨fun _ => none, fun _ => none, fun _ _ => none⟩
        [FormEntry.file ⟨"a.png", "t", [1]⟩ none,
         FormEntry.file ⟨"b.png", "t", [2]⟩ (some "boom"),
         FormEntry.file ⟨"c.png", "t", [3]⟩ none]).2.getD 2
      ⟨"", none, none, ""⟩).status = "uploaded" :=
  ⟨((c9_batch_isolation (fun p => if p = [1] then "dA" else "dC") (fun n => if n = 0 then "i1" else "i3") 0 "o"
      ⟨fun _ => none, fun _ => none, fun _ _ => none⟩
      [FormEntry.file ⟨"a.png", "t", [1]⟩ none,
       FormEntry.file ⟨"b.png", "t", [2]⟩ (some "boom"),
       FormEntry.file ⟨"c.png", "t", [3]⟩ none]).2
    (fun h => List.noConfusion h)).2.2.2 1 (by decide) (by decide),
   by decide, by decide, by decide⟩
